import Mathlib

/-!
Shallow embedding of the Vue 2 reactivity core (Dep, Watcher, Observer,
defineReactive, set, del, traverse) and proofs about its behaviour.

Conventions: Deps are identified by their numeric `id` (unique, `uid++` in
the source); Watchers by their numeric `id`.  JavaScript `Set` objects
(`SimpleSet`) are modelled as duplicate-free lists with `has = membership`,
`add = append`, `clear = []`.  The `remove` utility (indexOf + splice)
removes the first matching occurrence from an array.
-/

namespace Vue

/-- The `remove(arr, item)` utility from `src/shared/util`: finds the first
occurrence with `indexOf` and splices it out; no-op when absent. -/
def removeFirst (w : Nat) : List Nat → List Nat
  | [] => []
  | x :: xs => if x = w then xs else x :: removeFirst w xs

/-! ## Watcher dependency bookkeeping (`addDep` / `cleanupDeps`)

State of one Watcher `w` together with the subscriber lists of every Dep,
keyed by Dep id.  `deps`/`depIds` hold the previous evaluation's Deps,
`newDeps`/`newDepIds` the current one being built. -/

structure DepWorld where
  deps : List Nat
  newDeps : List Nat
  depIds : List Nat
  newDepIds : List Nat
  subsOf : Nat → List Nat

/-- `Watcher.prototype.addDep(dep)`:
if the Dep's id is not in `newDepIds`, record it in `newDepIds` and
`newDeps`; additionally, if the id is not in the previous `depIds`,
call `dep.addSub(this)` (append `w` to that Dep's `subs`). -/
def addDep (w : Nat) (st : DepWorld) (id : Nat) : DepWorld :=
  if id ∈ st.newDepIds then st
  else if id ∈ st.depIds then
    { st with newDepIds := st.newDepIds ++ [id], newDeps := st.newDeps ++ [id] }
  else
    { st with newDepIds := st.newDepIds ++ [id], newDeps := st.newDeps ++ [id]
              subsOf := fun d => if d = id then st.subsOf d ++ [w] else st.subsOf d }

/-- One step of the `cleanupDeps` loop body: for Dep `d` of the previous
evaluation, if `d` is not in `newDepIds` then `dep.removeSub(this)`. -/
def cleanupStep (w : Nat) (newIds : List Nat) (f : Nat → List Nat) (d : Nat) :
    Nat → List Nat :=
  if d ∈ newIds then f
  else fun x => if x = d then removeFirst w (f x) else f x

/-- `Watcher.prototype.cleanupDeps()`: walk `deps` from the back, removing
the watcher from every Dep whose id is absent from `newDepIds`; then swap
`depIds ↔ newDepIds` and `deps ↔ newDeps`, clearing the new side. -/
def cleanupDeps (w : Nat) (st : DepWorld) : DepWorld :=
  { deps := st.newDeps
    newDeps := []
    depIds := st.newDepIds
    newDepIds := []
    subsOf := st.deps.reverse.foldl (cleanupStep w st.newDepIds) st.subsOf }

/-- One full dependency-collection pass of `Watcher.get`, as far as
bookkeeping is concerned: each Dep touched by the getter calls
`dep.depend()`, which delegates to `addDep`; afterwards `cleanupDeps`
runs. -/
def evalPass (w : Nat) (st : DepWorld) (touched : List Nat) : DepWorld :=
  cleanupDeps w (touched.foldl (addDep w) st)

/-- The between-evaluations invariant of a Watcher's bookkeeping:
the new-side containers are empty, `deps` is duplicate-free with `depIds`
mirroring its membership, and the watcher sits in a Dep's subscriber list
exactly once when that Dep is in `deps` and not at all otherwise. -/
def DepInv (w : Nat) (st : DepWorld) : Prop :=
  st.newDeps = [] ∧ st.newDepIds = [] ∧ st.deps.Nodup ∧
  (∀ d, d ∈ st.depIds ↔ d ∈ st.deps) ∧
  (∀ d, (st.subsOf d).count w = if d ∈ st.deps then 1 else 0)

/-! ### Lemmas for the dependency bookkeeping -/

theorem removeFirst_count (w : Nat) (s : List Nat) :
    (removeFirst w s).count w = s.count w - 1 := by
  induction s with
  | nil => simp [removeFirst]
  | cons x xs ih =>
    by_cases hx : x = w
    · subst hx; simp [removeFirst]
    · simp [removeFirst, hx, ih, List.count_cons, Ne.symm hx]

theorem removeFirst_count_of_absent (w : Nat) (s : List Nat) (h : s.count w = 0) :
    (removeFirst w s).count w = 0 := by
  simp [removeFirst_count, h]

/-- The cleanup loop, applied to a duplicate-free list of Dep ids, removes
the watcher once from exactly the listed Deps that are absent from the
new-id set. -/
theorem cleanup_fold (w : Nat) (nd : List Nat) (l : List Nat) (hl : l.Nodup)
    (f : Nat → List Nat) (x : Nat) :
    (l.foldl (cleanupStep w nd) f) x =
      if x ∈ l ∧ x ∉ nd then removeFirst w (f x) else f x := by
  induction l generalizing f with
  | nil => simp
  | cons a l ih =>
    have ha : a ∉ l := (List.nodup_cons.mp hl).1
    have hl' : l.Nodup := (List.nodup_cons.mp hl).2
    rw [List.foldl_cons, ih hl']
    have hstep : (cleanupStep w nd f a) x =
        if x = a ∧ a ∉ nd then removeFirst w (f x) else f x := by
      by_cases hand : a ∈ nd
      · simp [cleanupStep, hand]
      · simp only [cleanupStep, if_neg hand]
        by_cases hxa : x = a
        · subst hxa; simp [hand]
        · simp [hxa]
    rw [hstep]
    by_cases hxa : x = a
    · subst hxa
      by_cases hnd : x ∈ nd <;> simp [hnd, ha]
    · by_cases hx : x ∈ l <;> by_cases hnd : x ∈ nd <;> simp [hx, hnd, hxa]

/-- Invariant maintained while `addDep` calls accumulate during one
evaluation: previous-side containers untouched, new side duplicate-free
with `newDepIds` mirroring `newDeps`, and the watcher subscribed exactly
to `deps ∪ newDeps`. -/
def MidInv (w : Nat) (D I : List Nat) (st : DepWorld) : Prop :=
  st.deps = D ∧ st.depIds = I ∧ st.newDeps.Nodup ∧
  (∀ d, d ∈ st.newDepIds ↔ d ∈ st.newDeps) ∧
  (∀ d, (st.subsOf d).count w = if d ∈ D ∨ d ∈ st.newDeps then 1 else 0)

theorem addDep_mid (w : Nat) (D I : List Nat) (HI : ∀ d, d ∈ I ↔ d ∈ D)
    (st : DepWorld) (id : Nat) (h : MidInv w D I st) :
    MidInv w D I (addDep w st id) ∧
    (∀ d, d ∈ (addDep w st id).newDeps ↔ d ∈ st.newDeps ∨ d = id) := by
  obtain ⟨hD, hI, hnodup, hmirror, hcount⟩ := h
  by_cases h1 : id ∈ st.newDepIds
  · have h1' : id ∈ st.newDeps := (hmirror id).mp h1
    have he : addDep w st id = st := by simp [addDep, h1]
    rw [he]
    refine ⟨⟨hD, hI, hnodup, hmirror, hcount⟩, fun d => ?_⟩
    constructor
    · exact fun hd => Or.inl hd
    · rintro (hd | rfl)
      · exact hd
      · exact h1'
  · have hnew : id ∉ st.newDeps := fun hh => h1 ((hmirror id).mpr hh)
    have hnodup' : (st.newDeps ++ [id]).Nodup := by
      refine List.Nodup.append hnodup (List.nodup_singleton id) ?_
      simpa using fun hh => hnew hh
    have hmirror' : ∀ d, d ∈ st.newDepIds ++ [id] ↔ d ∈ st.newDeps ++ [id] := by
      intro d; simp only [List.mem_append, List.mem_singleton]
      exact or_congr_left (hmirror d)
    by_cases h2 : id ∈ st.depIds
    · have hidD : id ∈ D := (HI id).mp (hI ▸ h2)
      have he : addDep w st id =
          { st with newDepIds := st.newDepIds ++ [id],
                    newDeps := st.newDeps ++ [id] } := by
        simp [addDep, h1, h2]
      rw [he]
      refine ⟨⟨hD, hI, hnodup', hmirror', fun d => ?_⟩, fun d => by simp⟩
      rw [hcount d]
      by_cases hd : d = id
      · subst hd; simp [hidD]
      · simp [List.mem_append, hd]
    · have he : addDep w st id =
          { st with newDepIds := st.newDepIds ++ [id],
                    newDeps := st.newDeps ++ [id],
                    subsOf := fun d =>
                      if d = id then st.subsOf d ++ [w] else st.subsOf d } := by
        simp [addDep, h1, h2]
      rw [he]
      refine ⟨⟨hD, hI, hnodup', hmirror', fun d => ?_⟩, fun d => by simp⟩
      by_cases hd : d = id
      · subst hd
        have hdD : d ∉ D := fun hh => h2 (hI ▸ (HI d).mpr hh)
        simp [hcount d, hdD, hnew]
      · simp [hd, hcount d]

theorem foldDep_mid (w : Nat) (D I : List Nat) (HI : ∀ d, d ∈ I ↔ d ∈ D)
    (touched : List Nat) (st : DepWorld) (h : MidInv w D I st) :
    MidInv w D I (touched.foldl (addDep w) st) ∧
    (∀ d, d ∈ (touched.foldl (addDep w) st).newDeps ↔
      d ∈ st.newDeps ∨ d ∈ touched) := by
  induction touched generalizing st with
  | nil => simpa using h
  | cons t ts ih =>
    obtain ⟨h1, h2⟩ := addDep_mid w D I HI st t h
    obtain ⟨h3, h4⟩ := ih (addDep w st t) h1
    refine ⟨h3, fun d => ?_⟩
    rw [List.foldl_cons] at *
    rw [h4 d, h2 d]
    simp only [List.mem_cons]
    tauto

/-- A concrete starting state for exercising the bookkeeping: watcher 1
subscribed to Dep 0 from its previous evaluation. -/
def sampleWorld : DepWorld :=
  ⟨[0], [], [0], [], fun d => if d = 0 then [1] else []⟩

/-! ## `Dep.prototype.notify`

A subscriber is a Watcher seen through the only two things `notify` uses:
its `id` (for the sort comparator) and its `update` hook.  The hook is
modelled as an arbitrary mutation of the Dep's live subscriber list, so
that the defensive `slice()` can be stated: the invocation sequence is
fixed by the list at entry, whatever the hooks do to it. -/

structure Sub where
  id : Nat
deriving DecidableEq, Repr

/-- `subs.sort((a, b) => a.id - b.id)`: stable ascending sort by id. -/
def sortSubs (subs : List Sub) : List Sub :=
  subs.mergeSort (fun a b => a.id ≤ b.id)

/-- `Dep.prototype.notify()`: `const subs = this.subs.slice()` takes a
snapshot; when `process.env.NODE_ENV !== 'production' && !config.async`
the snapshot is sorted by ascending id; then `subs[i].update()` runs for
each snapshot entry in order.  Returns the final live subscriber list
(after the hooks' mutations) together with the invocation sequence. -/
def notify (production async : Bool) (d : List Sub)
    (hook : Sub → List Sub → List Sub) : List Sub × List Sub :=
  let subs := d
  let subs := if ¬production ∧ ¬async then sortSubs subs else subs
  (subs.foldl (fun s i => hook i s) d, subs)

/-! ## `Watcher.prototype.get` — the evaluation protocol

The getter either produces a value or throws, modelled as `Except E V`.
`get` is modelled as a function from the global target stack (head = the
current `Dep.target`) to a result plus the restored stack plus an event
trace recording, in order, everything `get` does besides returning. -/

inductive GetEvent (E V : Type) where
  | pushedTarget (w : Nat)
  | errorHandled (e : E)
  | traversed (v : Option V)
  | poppedTarget
  | cleaned
deriving DecidableEq, Repr

/-- `Watcher.prototype.get()`: `pushTarget(this)`; run the getter in a
`try`; on a throw, a user watcher routes the error to `handleError` and
falls through with `value` still `undefined`, any other watcher re-throws;
the `finally` block traverses `value` when `deep`, pops the target stack
and runs `cleanupDeps`; on the normal path the value is returned, on the
re-throw path the error propagates. -/
def watcherGet (w : Nat) (user deep : Bool) (getter : Except E V)
    (stack : List Nat) :
    Except E (Option V) × List Nat × List (GetEvent E V) :=
  let stack1 := w :: stack
  let (value, propagated, handledEvents) :=
    match getter with
    | .ok v => (some v, (none : Option E), ([] : List (GetEvent E V)))
    | .error e =>
      if user then (none, none, [GetEvent.errorHandled e])
      else (none, some e, [])
  let deepEvents := if deep then [GetEvent.traversed value] else []
  let stack2 := stack1.tail
  (match propagated with
   | some e => Except.error e
   | none => Except.ok value,
   stack2,
   [GetEvent.pushedTarget w] ++ handledEvents ++ deepEvents
     ++ [GetEvent.poppedTarget, GetEvent.cleaned])

/-! ## Watcher state, `update`, construction, `evaluate` -/

/-- The Watcher fields relevant to `update`/`evaluate`: option flags,
the lazy `dirty` flag, the `active` flag and the cached `value`
(`Option` because a lazy watcher starts out `undefined`). -/
structure WatcherM (V : Type) where
  lazy : Bool
  sync : Bool
  user : Bool
  deep : Bool
  dirty : Bool
  active : Bool
  value : Option V
deriving DecidableEq, Repr

/-- What `Watcher.prototype.update()` did: called `this.run()`, or handed
the watcher to the external scheduler via `queueWatcher(this)`. -/
inductive UpdateAct where
  | ranRun
  | queuedWatcher
deriving DecidableEq, Repr

/-- `Watcher.prototype.update()`: lazy ⇒ `this.dirty = true`;
else sync ⇒ `this.run()`; else `queueWatcher(this)`. -/
def update (w : WatcherM V) : WatcherM V × List UpdateAct :=
  if w.lazy then ({ w with dirty := true }, [])
  else if w.sync then (w, [UpdateAct.ranRun])
  else (w, [UpdateAct.queuedWatcher])

/-- The tail of the Watcher constructor:
`this.dirty = this.lazy`, `this.active = true`,
`this.value = this.lazy ? undefined : this.get()`.  Returns the watcher
together with the trace of the constructor-time `get` (empty when lazy,
so in particular the getter is not executed). -/
def newWatcher (wid : Nat) (lazy sync user deep : Bool) (getter : Except E V)
    (stack : List Nat) : WatcherM V × List (GetEvent E V) :=
  if lazy then
    ({ lazy := lazy, sync := sync, user := user, deep := deep,
       dirty := lazy, active := true, value := none }, [])
  else
    let r := watcherGet wid user deep getter stack
    ({ lazy := lazy, sync := sync, user := user, deep := deep,
       dirty := lazy, active := true,
       value := match r.1 with | .ok v => v | .error _ => none },
     r.2.2)

/-- `Watcher.prototype.evaluate()`: `this.value = this.get();
this.dirty = false`.  When `get` re-throws, the assignment and the
`dirty` clearing never execute (JavaScript exception semantics), but
`get`'s `finally` work (traverse/pop/cleanup) has already happened. -/
def evaluate (wid : Nat) (w : WatcherM V) (getter : Except E V)
    (stack : List Nat) :
    Except E Unit × WatcherM V × List Nat × List (GetEvent E V) :=
  match watcherGet (E := E) wid w.user w.deep getter stack with
  | (Except.ok v, stack', tr) =>
    (Except.ok (), { w with value := v, dirty := false }, stack', tr)
  | (Except.error e, stack', tr) => (Except.error e, w, stack', tr)

/-- A concrete lazy watcher (not sync, not user, not deep, dirty,
active, value still undefined). -/
def sampleWatcher : WatcherM Nat := ⟨true, false, false, false, true, true, none⟩

/-- Number of `get`-protocol entries (target pushes) in a trace: each run
of `Watcher.get` — and hence each execution of the getter — pushes the
target stack exactly once. -/
def countPushes : List (GetEvent E V) → Nat
  | [] => 0
  | GetEvent.pushedTarget _ :: tr => countPushes tr + 1
  | GetEvent.errorHandled _ :: tr => countPushes tr
  | GetEvent.traversed _ :: tr => countPushes tr
  | GetEvent.poppedTarget :: tr => countPushes tr
  | GetEvent.cleaned :: tr => countPushes tr

/-! ## `defineReactive` — the installed setter (`reactiveSetter`)

JavaScript values as far as the setter's equality test can tell them
apart: `undefined`, numbers (with `NaN` separate, since `NaN !== NaN`),
strings, and object references compared by identity. -/

inductive JSVal where
  | undef
  | num (n : Int)
  | nan
  | str (s : String)
  | obj (id : Nat)
deriving DecidableEq, Repr

/-- JavaScript strict equality `===` on `JSVal`: structural, except that
`NaN` is not equal to anything, itself included. -/
def strictEq (a b : JSVal) : Bool :=
  match a, b with
  | JSVal.nan, _ => false
  | _, JSVal.nan => false
  | a, b => decide (a = b)

/-- `v !== v`, the self-inequality test the setter uses: true exactly for
`NaN`. -/
def selfNe (v : JSVal) : Bool :=
  match v with
  | JSVal.nan => true
  | _ => false

/-- The mutable state owned by one reactive property, plus the externally
visible effects of running its setter: values passed to the captured
setter, values passed to `observe`, `customSetter` invocations and
`dep.notify()` invocations. -/
structure PropState where
  val : JSVal
  childOb : Option Nat
  setterCalls : List JSVal
  observeCalls : List JSVal
  customSetterCalls : Nat
  notifyCalls : Nat
deriving DecidableEq, Repr

/-- `reactiveSetter(newVal)` from `defineReactive`:
old value via the captured getter (modelled as the constant it returns)
or the local slot; return if `newVal === value || (newVal !== newVal &&
value !== value)`; call `customSetter` in a dev build; return if a
captured getter exists without a setter; store via the captured setter or
the local slot; `childOb = !shallow && observe(newVal)`; `dep.notify()`.
`obResult` states what `observe` returns for the new value. -/
def reactiveSetter (getter : Option JSVal) (hasSetter : Bool)
    (shallow dev hasCustomSetter : Bool) (obResult : JSVal → Option Nat)
    (st : PropState) (newVal : JSVal) : PropState :=
  let value := match getter with | some g => g | none => st.val
  if strictEq newVal value || (selfNe newVal && selfNe value) then st
  else
    let st1 := if dev && hasCustomSetter then
        { st with customSetterCalls := st.customSetterCalls + 1 }
      else st
    if getter.isSome && !hasSetter then st1
    else
      let st2 := if hasSetter then
          { st1 with setterCalls := st1.setterCalls ++ [newVal] }
        else { st1 with val := newVal }
      let st3 := if shallow then { st2 with childOb := none }
        else { st2 with childOb := obResult newVal,
                        observeCalls := st2.observeCalls ++ [newVal] }
      { st3 with notifyCalls := st3.notifyCalls + 1 }

/-! ## `set` / `del` on containers

A container is either an array (with or without the intercepted method
prototype, i.e. an Observer) or a plain object with own enumerable
fields, an optional Observer, its `vmCount` and the `_isVue` marker.
Object keys are abstracted to `Nat`; every `Nat` is a valid array
index (`isValidArrayIndex`). -/

structure ObjData where
  fields : List (Nat × JSVal)
  observed : Bool
  vmCount : Nat
  isVue : Bool
deriving DecidableEq, Repr

inductive Container where
  | arr (elems : List JSVal) (observed : Bool)
  | obj (o : ObjData)
deriving DecidableEq, Repr

/-- Own-property lookup (`key in target` / `hasOwn(target, key)` for our
prototype-free objects). -/
def lookupKey (fs : List (Nat × JSVal)) (k : Nat) : Option JSVal :=
  match fs with
  | [] => none
  | (k', v) :: rest => if k' = k then some v else lookupKey rest k

/-- `target[key] = val` on an existing own key: overwrite in place. -/
def setExisting (fs : List (Nat × JSVal)) (k : Nat) (v : JSVal) :
    List (Nat × JSVal) :=
  match fs with
  | [] => []
  | (k', v') :: rest =>
    if k' = k then (k, v) :: rest else (k', v') :: setExisting rest k v

/-- `delete target[key]`: drop the (single) own entry for `key`. -/
def removeKey (fs : List (Nat × JSVal)) (k : Nat) : List (Nat × JSVal) :=
  match fs with
  | [] => []
  | (k', v') :: rest =>
    if k' = k then rest else (k', v') :: removeKey rest k

/-- `target.length = Math.max(target.length, key); target.splice(key, 1,
val)`: pad with `undefined` up to `key`, then replace/insert at `key`. -/
def arraySet (es : List JSVal) (k : Nat) (v : JSVal) : List JSVal :=
  let grown := es ++ List.replicate (k - es.length) JSVal.undef
  grown.take k ++ [v] ++ grown.drop (k + 1)

/-- Externally visible effects of `set`/`del`: notifications of the
container Observer's own dep, values passed to `observe`, and whether the
avoid-adding/deleting-on-Vue-or-root warning branch was taken. -/
structure MutEff where
  obNotify : Nat
  observedVals : List JSVal
  warned : Bool
deriving DecidableEq, Repr

/-- `set(target, key, val)`.  The array branch runs `splice`, whose
interception — modelled from the spec: the seven intercepted array
methods run normally, then observe any inserted elements and call
`notify()` on the array's own dep — fires only when the array carries an
Observer.  Object branches follow the source's order: existing own key ⇒
plain assignment (the existing accessor handles notification); `_isVue`
or root `$data` ⇒ warn and return; no Observer ⇒ plain assignment; else
`defineReactive(ob.value, key, val)` (which observes `val`) and
`ob.dep.notify()`. -/
def set (c : Container) (k : Nat) (v : JSVal) : Container × MutEff :=
  match c with
  | Container.arr es ob =>
    (Container.arr (arraySet es k v) ob,
     if ob then ⟨1, [v], false⟩ else ⟨0, [], false⟩)
  | Container.obj o =>
    if (lookupKey o.fields k).isSome then
      (Container.obj { o with fields := setExisting o.fields k v },
       ⟨0, [], false⟩)
    else if o.isVue || (o.observed && o.vmCount ≠ 0) then
      (Container.obj o, ⟨0, [], true⟩)
    else if !o.observed then
      (Container.obj { o with fields := o.fields ++ [(k, v)] },
       ⟨0, [], false⟩)
    else
      (Container.obj { o with fields := o.fields ++ [(k, v)] },
       ⟨1, [v], false⟩)

/-- `del(target, key)`: array ⇒ `splice(key, 1)` (interception notifies
when observed); `_isVue`/root ⇒ warn and return; key not own ⇒ return;
else delete, and notify only when the target has an Observer. -/
def del (c : Container) (k : Nat) : Container × MutEff :=
  match c with
  | Container.arr es ob =>
    (Container.arr (es.take k ++ es.drop (k + 1)) ob,
     if ob then ⟨1, [], false⟩ else ⟨0, [], false⟩)
  | Container.obj o =>
    if o.isVue || (o.observed && o.vmCount ≠ 0) then
      (Container.obj o, ⟨0, [], true⟩)
    else if (lookupKey o.fields k).isNone then
      (Container.obj o, ⟨0, [], false⟩)
    else if !o.observed then
      (Container.obj { o with fields := removeKey o.fields k },
       ⟨0, [], false⟩)
    else
      (Container.obj { o with fields := removeKey o.fields k },
       ⟨1, [], false⟩)

/-- Own-property lookup on a resulting container (object side). -/
def containerLookup (c : Container) (k : Nat) : Option JSVal :=
  match c with
  | Container.arr es _ => es.get? k
  | Container.obj o => lookupKey o.fields k

/-! ## `observe`

A candidate value is either a primitive (`!isObject`) or an object with
the attributes `observe` inspects: the VNode check, `Array.isArray ||
isPlainObject`, `Object.isExtensible`, `_isVue`, and the `__ob__` tag
(the id of an attached Observer).  Creating an Observer consumes the next
observer id and tags the value (`def(value, '__ob__', this)`). -/

structure ObsObj where
  isVNode : Bool
  arrayOrPlain : Bool
  extensible : Bool
  isVue : Bool
  ob : Option Nat
deriving DecidableEq, Repr

inductive ObsValue where
  | prim
  | obj (d : ObsObj)
deriving DecidableEq, Repr

/-- `observe(value)`: return nothing for non-objects and VNodes; return
the existing `__ob__` when present; otherwise create a new Observer when
`shouldObserve`, not server rendering, array-or-plain-object, extensible
and not `_isVue`.  Returns the result, the (possibly tagged) value and
the next fresh observer id. -/
def observe (shouldObs ssr : Bool) (nextId : Nat) (v : ObsValue) :
    Option Nat × ObsValue × Nat :=
  match v with
  | ObsValue.prim => (none, v, nextId)
  | ObsValue.obj d =>
    if d.isVNode then (none, v, nextId)
    else if d.ob.isSome then (d.ob, v, nextId)
    else if shouldObs ∧ ¬ssr ∧ d.arrayOrPlain ∧ d.extensible ∧ ¬d.isVue then
      (some nextId, ObsValue.obj { d with ob := some nextId }, nextId + 1)
    else (none, v, nextId)

/-! ## `traverse`

Values form a heap graph: a `TVal` is a primitive or a reference into a
list of nodes; a node carries the flags `_traverse` checks (`isFrozen`,
VNode), the dep id of its Observer when it has one (`val.__ob__.dep.id`),
and its element/key values.  Cyclic structures are ordinary heaps whose
references loop.  `_traverse` is given recursion fuel; `none` means the
fuel ran out, i.e. the walk was still running — a run that returns
`none` for every fuel is a non-terminating traversal. -/

inductive TVal where
  | prim
  | ref (i : Nat)
deriving DecidableEq, Repr

structure TNode where
  frozen : Bool
  vnode : Bool
  depId : Option Nat
  children : List TVal
deriving Repr

mutual
/-- `_traverse(val, seen)`: bail out on non-objects, frozen values and
VNodes; for a value with an Observer, stop if its dep id is in `seen`,
otherwise add it; then recurse into every element or own key (the
source's `while (i--)` walks them from the last to the first, hence
`children.reverse`). -/
def traverseF (h : List TNode) (fuel : Nat) (v : TVal) (seen : List Nat) :
    Option (List Nat) :=
  match fuel with
  | 0 => none
  | fuel + 1 =>
    match v with
    | TVal.prim => some seen
    | TVal.ref i =>
      match h[i]? with
      | none => some seen
      | some nd =>
        if nd.frozen || nd.vnode then some seen
        else
          match nd.depId with
          | some dd =>
            if dd ∈ seen then some seen
            else traverseChildren h fuel nd.children.reverse (dd :: seen)
          | none => traverseChildren h fuel nd.children.reverse seen
termination_by (fuel, 0)

/-- The `while (i--) _traverse(...)` loop over a node's children,
threading the `seen` set. -/
def traverseChildren (h : List TNode) (fuel : Nat) (cs : List TVal)
    (seen : List Nat) : Option (List Nat) :=
  match cs with
  | [] => some seen
  | c :: rest =>
    match traverseF h fuel c seen with
    | none => none
    | some s' => traverseChildren h fuel rest s'
termination_by (fuel, cs.length + 1)
end

/-- `traverse(val)`: run `_traverse(val, seenObjects)` (the module-global
`seenObjects`, passed in as `seen0`), then `seenObjects.clear()`.
Returns whether the walk completed and the final global seen set. -/
def traverseTop (h : List TNode) (fuel : Nat) (v : TVal) (seen0 : List Nat) :
    Option Unit × List Nat :=
  match traverseF h fuel v seen0 with
  | none => (none, seen0)
  | some _ => (some (), [])

/-- All dep ids attached to nodes of the heap. -/
def heapDepIds (h : List TNode) : Finset Nat :=
  (h.filterMap TNode.depId).toFinset

/-- Every traversable node of the heap carries an Observer — true of the
reactive data deep watchers are used on. -/
def AllObserved (h : List TNode) : Prop :=
  ∀ nd ∈ h, nd.frozen = false → nd.vnode = false → nd.depId.isSome = true

end Vue

open Vue

/-- C1: after a Watcher completes an evaluation touching the Deps in
`touched`, it appears in a Dep's subscriber list exactly once when that
Dep was depended on during the evaluation and zero times otherwise;
`addDep` subscribes at most once per Dep and skips resubscription for
persisting Deps, and `cleanupDeps` unsubscribes stale Deps, swaps the
dep containers and clears the new side (all captured by `DepInv`). -/
theorem c1_subscriptions_match_latest_eval (w : Nat) (st : DepWorld)
    (touched : List Nat) (h : DepInv w st) :
    DepInv w (evalPass w st touched) ∧
    (∀ d, d ∈ (evalPass w st touched).deps ↔ d ∈ touched) ∧
    (∀ d, ((evalPass w st touched).subsOf d).count w =
      if d ∈ touched then 1 else 0) := by
  obtain ⟨hnd0, hni0, hDnodup, hIiff, hcount0⟩ := h
  have hmid0 : MidInv w st.deps st.depIds st := by
    refine ⟨rfl, rfl, ?_, ?_, ?_⟩
    · rw [hnd0]; exact List.nodup_nil
    · intro d; rw [hnd0, hni0]
    · intro d; rw [hcount0 d, hnd0]; simp
  obtain ⟨⟨hfD, hfI, hfnodup, hfmirror, hfcount⟩, hfmem⟩ :=
    foldDep_mid w st.deps st.depIds hIiff touched st hmid0
  set stf := touched.foldl (addDep w) st with hstf
  have hmemt : ∀ d, d ∈ stf.newDeps ↔ d ∈ touched := by
    intro d; rw [hfmem d, hnd0]; simp
  have hfrev : stf.deps.reverse.Nodup := by
    rw [List.nodup_reverse, hfD]; exact hDnodup
  have hsubs : ∀ d, ((cleanupDeps w stf).subsOf d) =
      if d ∈ stf.deps ∧ d ∉ stf.newDepIds then removeFirst w (stf.subsOf d)
      else stf.subsOf d := by
    intro d
    show (stf.deps.reverse.foldl (cleanupStep w stf.newDepIds) stf.subsOf) d = _
    rw [cleanup_fold w stf.newDepIds stf.deps.reverse hfrev stf.subsOf d]
    simp
  have hcount' : ∀ d, ((cleanupDeps w stf).subsOf d).count w =
      if d ∈ touched then 1 else 0 := by
    intro d
    rw [hsubs d]
    by_cases ht : d ∈ touched
    · have hnewd : d ∈ stf.newDeps := (hmemt d).mpr ht
      have hnid : d ∈ stf.newDepIds := (hfmirror d).mpr hnewd
      rw [if_neg (by simp [hnid]), hfcount d]
      simp [hnewd, ht]
    · have hnewd : d ∉ stf.newDeps := fun hh => ht ((hmemt d).mp hh)
      have hnid : d ∉ stf.newDepIds := fun hh => hnewd ((hfmirror d).mp hh)
      by_cases hdD : d ∈ stf.deps
      · rw [if_pos ⟨hdD, hnid⟩, removeFirst_count, hfcount d]
        rw [hfD] at hdD
        simp [hdD, ht]
      · rw [if_neg (by simp [hdD]), hfcount d]
        rw [hfD] at hdD
        simp [hdD, hnewd, ht]
  refine ⟨⟨rfl, rfl, ?_, ?_, ?_⟩, ?_, ?_⟩
  · show stf.newDeps.Nodup
    exact hfnodup
  · intro d
    show d ∈ stf.newDepIds ↔ d ∈ stf.newDeps
    exact hfmirror d
  · intro d
    show ((cleanupDeps w stf).subsOf d).count w =
      if d ∈ (cleanupDeps w stf).deps then 1 else 0
    rw [hcount' d]
    have hiff : d ∈ (cleanupDeps w stf).deps ↔ d ∈ touched := by
      show d ∈ stf.newDeps ↔ d ∈ touched
      exact hmemt d
    exact if_congr hiff.symm rfl rfl
  · intro d
    show d ∈ stf.newDeps ↔ d ∈ touched
    exact hmemt d
  · exact hcount'

/-- Witness for C1: watcher 1 previously depended on Dep 0; an evaluation
touching Dep 5 twice leaves it subscribed to Dep 5 once and removed from
Dep 0. -/
theorem c1_subscriptions_match_latest_eval_witness :
    DepInv 1 sampleWorld ∧
    ((evalPass 1 sampleWorld [5, 5]).subsOf 5).count 1 = 1 ∧
    ((evalPass 1 sampleWorld [5, 5]).subsOf 0).count 1 = 0 := by
  have hinv : DepInv 1 sampleWorld := by
    refine ⟨rfl, rfl, by decide, fun d => Iff.rfl, fun d => ?_⟩
    by_cases hd : d = 0 <;> simp [sampleWorld, hd]
  refine ⟨hinv, ?_, ?_⟩
  · have h := (c1_subscriptions_match_latest_eval 1 sampleWorld [5, 5] hinv).2.2 5
    simpa using h
  · have h := (c1_subscriptions_match_latest_eval 1 sampleWorld [5, 5] hinv).2.2 0
    simpa using h

/-- C2 counterexample: in production mode with `config.async = false`
(synchronous, non-batched), `notify` does not sort the snapshot — the
sort is additionally guarded by `process.env.NODE_ENV !== 'production'`,
so subscribers [id 2, id 1] are invoked in unsorted order. -/
theorem c2_production_sync_not_sorted :
    (notify true false [⟨2⟩, ⟨1⟩] (fun _ s => s)).2 = [⟨2⟩, ⟨1⟩] ∧
    ¬ List.Sorted (fun a b : Sub => a.id ≤ b.id) [(⟨2⟩ : Sub), ⟨1⟩] := by
  constructor
  · rfl
  · decide

/-- C2 (amended): `notify` snapshots the subscriber collection at entry —
the invocation sequence is fixed by that snapshot and is unaffected by
any mutation the update hooks perform on the live list —, invokes each
subscriber's update hook in the snapshot's order, and sorts the snapshot
by ascending Watcher id exactly when running synchronously (non-batched)
*and* not in production mode; the snapshot is always a permutation of the
entry list, and the sorted snapshot is ascending in id. -/
theorem c2_notify_snapshot_and_sort (production async : Bool) (d : List Sub)
    (hook hook' : Sub → List Sub → List Sub) :
    (notify production async d hook).2 =
      (if ¬production ∧ ¬async then sortSubs d else d) ∧
    (notify production async d hook).2 = (notify production async d hook').2 ∧
    ((notify production async d hook).2).Perm d ∧
    List.Sorted (fun a b : Sub => a.id ≤ b.id) (sortSubs d) ∧
    (notify production async d hook).1 =
      ((notify production async d hook).2).foldl (fun s i => hook i s) d := by
  refine ⟨rfl, rfl, ?_, ?_, rfl⟩
  · by_cases h : ¬production ∧ ¬async
    · simp only [notify, if_pos h]
      exact List.mergeSort_perm d _
    · simp only [notify, if_neg h]
      exact List.Perm.refl d
  · have hp := @List.sorted_mergeSort Sub
      (fun a b : Sub => a.id ≤ b.id)
      (fun a b c hab hbc => by
        simp only [decide_eq_true_eq] at *
        exact le_trans hab hbc)
      (fun a b => by
        simp only [Bool.or_eq_true, decide_eq_true_eq]
        exact Nat.le_total a.id b.id)
      d
    exact hp.imp (fun h => by simpa using h)

/-- C3: `Watcher.get` pushes the watcher on the target stack before the
getter runs and pops it afterwards (the enclosing target is restored in
every case); a throwing getter is routed to `handleError` when the
watcher is user-flagged (returning `undefined`) and propagates otherwise;
and in all cases — success or error — the trace is: push, then the
handled error (if any), then `traverse` of the resulting value exactly
when `deep` is set, then the pop, then `cleanupDeps`. -/
theorem c3_get_push_handle_traverse_pop_cleanup (E V : Type) (w : Nat)
    (user deep : Bool) (getter : Except E V) (stack : List Nat) :
    (watcherGet w user deep getter stack).2.1 = stack ∧
    (∀ v, getter = Except.ok v →
      (watcherGet w user deep getter stack).1 = Except.ok (some v)) ∧
    (∀ e, getter = Except.error e → user = true →
      (watcherGet w user deep getter stack).1 = Except.ok none ∧
      GetEvent.errorHandled e ∈ (watcherGet w user deep getter stack).2.2) ∧
    (∀ e, getter = Except.error e → user = false →
      (watcherGet w user deep getter stack).1 = Except.error e) ∧
    (watcherGet w user deep getter stack).2.2 =
      [GetEvent.pushedTarget w]
        ++ (match getter with
            | Except.ok _ => []
            | Except.error e => if user then [GetEvent.errorHandled e] else [])
        ++ (if deep then
              [GetEvent.traversed
                (match getter with
                 | Except.ok v => some v
                 | Except.error _ => none)]
            else [])
        ++ [GetEvent.poppedTarget, GetEvent.cleaned] := by
  cases getter with
  | ok v =>
    refine ⟨rfl, ?_, ?_, ?_, ?_⟩
    · intro v' hv; cases hv; rfl
    · intro e he; cases he
    · intro e he; cases he
    · rfl
  | error e =>
    cases user with
    | true =>
      refine ⟨rfl, ?_, ?_, ?_, ?_⟩
      · intro v hv; cases hv
      · intro e' he hu; cases he
        exact ⟨rfl, by simp [watcherGet]⟩
      · intro e' he hu; cases hu
      · rfl
    | false =>
      refine ⟨rfl, ?_, ?_, ?_, ?_⟩
      · intro v hv; cases hv
      · intro e' he hu; cases hu
      · intro e' he hu; cases he; rfl
      · rfl

/-- Witness for C3: a deep, user-flagged watcher whose getter throws `3`:
the stack `[9]` is restored, the result is `undefined` with the error
routed to `handleError`, and the trace shows traverse before pop before
cleanup. -/
theorem c3_get_push_handle_traverse_pop_cleanup_witness :
    (watcherGet (E := Nat) (V := Nat) 7 true true (Except.error 3) [9]).2.1
        = [9] ∧
    (watcherGet (E := Nat) (V := Nat) 7 true true (Except.error 3) [9]).1
        = Except.ok none ∧
    GetEvent.errorHandled 3 ∈
      (watcherGet (E := Nat) (V := Nat) 7 true true (Except.error 3) [9]).2.2 := by
  have h := c3_get_push_handle_traverse_pop_cleanup Nat Nat 7 true true
    (Except.error 3) [9]
  exact ⟨h.1, (h.2.2.1 3 rfl rfl).1, (h.2.2.1 3 rfl rfl).2⟩

/-- C8: `update()` on a lazy watcher only sets `dirty` and performs no
run/queue action; on a sync watcher it runs immediately; otherwise it
queues the watcher.  A lazy watcher's construction does not execute the
getter (`value` starts `undefined`, `dirty = true`, empty get-trace), and
a subsequent `evaluate()` recomputes via `get()` exactly once (one
`pushedTarget` in its trace) and clears the dirty flag. -/
theorem c8_update_dispatch_and_lazy_evaluate (V E : Type) (wid : Nat)
    (w : WatcherM V) (sync user deep : Bool) (getter : Except E V)
    (stack : List Nat) :
    (w.lazy = true → update w = ({ w with dirty := true }, [])) ∧
    (w.lazy = false → w.sync = true → update w = (w, [UpdateAct.ranRun])) ∧
    (w.lazy = false → w.sync = false →
      update w = (w, [UpdateAct.queuedWatcher])) ∧
    (newWatcher wid true sync user deep getter stack =
      ({ lazy := true, sync := sync, user := user, deep := deep,
         dirty := true, active := true, value := none }, [])) ∧
    (∀ v, getter = Except.ok v →
      (evaluate wid w getter stack).2.1 =
        { w with value := some v, dirty := false } ∧
      countPushes ((evaluate wid w getter stack).2.2.2) = 1) := by
  refine ⟨?_, ?_, ?_, ?_, ?_⟩
  · intro hl; simp [update, hl]
  · intro hl hs; simp [update, hl, hs]
  · intro hl hs; simp [update, hl, hs]
  · rfl
  · intro v hv; subst hv
    cases hu : w.user <;> cases hd : w.deep <;>
      simp [evaluate, watcherGet, hu, hd, countPushes]

/-- Witness for C8: a lazy watcher (not sync, not user, not deep) with
getter returning `4`: update only marks dirty, construction leaves the
value undefined with an empty trace, and evaluate stores `4`, clears
dirty and ran `get` once. -/
theorem c8_update_dispatch_and_lazy_evaluate_witness :
    update sampleWatcher = (⟨true, false, false, false, true, true, none⟩, []) ∧
    newWatcher (E := Nat) (V := Nat) 2 true false false false
        (Except.ok 4) [] = (sampleWatcher, []) ∧
    (evaluate (E := Nat) 2 sampleWatcher (Except.ok 4) []).2.1 =
      ⟨true, false, false, false, false, true, some 4⟩ ∧
    countPushes ((evaluate (E := Nat) 2 sampleWatcher
        (Except.ok 4) []).2.2.2) = 1 := by
  have h := c8_update_dispatch_and_lazy_evaluate Nat Nat 2
    sampleWatcher false false false (Except.ok 4) []
  exact ⟨h.1 rfl, h.2.2.2.1, (h.2.2.2.2 4 rfl).1, (h.2.2.2.2 4 rfl).2⟩

/-- C10: for a lazy, non-user watcher whose getter throws during
`evaluate()`, the exception propagates, the cached value and the watcher
record are unchanged, `dirty` stays `true`, yet the target stack is
restored and `cleanupDeps` has run. -/
theorem c10_evaluate_error_leaves_value_and_dirty (V E : Type) (wid : Nat)
    (w : WatcherM V) (e : E) (stack : List Nat)
    (_hl : w.lazy = true) (hu : w.user = false) (hd : w.dirty = true) :
    (evaluate wid w (Except.error e) stack).1 = Except.error e ∧
    (evaluate wid w (Except.error e) stack).2.1 = w ∧
    (evaluate wid w (Except.error e) stack).2.1.dirty = true ∧
    (evaluate wid w (Except.error e) stack).2.2.1 = stack ∧
    GetEvent.poppedTarget ∈ (evaluate wid w (Except.error e) stack).2.2.2 ∧
    GetEvent.cleaned ∈ (evaluate wid w (Except.error e) stack).2.2.2 := by
  cases hdp : w.deep <;>
    simp [evaluate, watcherGet, hu, hdp, hd]

/-- Witness for C10: the lazy non-user watcher with a getter throwing `5`
keeps `value = none` and `dirty = true` while the stack `[3]` is restored
and cleanup ran. -/
theorem c10_evaluate_error_leaves_value_and_dirty_witness :
    sampleWatcher.lazy = true ∧
    (evaluate (E := Nat) 2 sampleWatcher (Except.error 5) [3]).1
        = Except.error 5 ∧
    (evaluate (E := Nat) 2 sampleWatcher (Except.error 5) [3]).2.1
        = sampleWatcher ∧
    (evaluate (E := Nat) 2 sampleWatcher (Except.error 5) [3]).2.2.1 = [3] ∧
    GetEvent.cleaned ∈
      (evaluate (E := Nat) 2 sampleWatcher (Except.error 5) [3]).2.2.2 := by
  have h := c10_evaluate_error_leaves_value_and_dirty Nat Nat 2
    sampleWatcher 5 [3] rfl rfl rfl
  exact ⟨rfl, h.1, h.2.1, h.2.2.2.1, h.2.2.2.2.2⟩

/-- The old value the setter compares against: the captured getter's
result when one exists, the local slot otherwise. -/
def oldVal (getter : Option JSVal) (st : PropState) : JSVal :=
  match getter with | some g => g | none => st.val

/-- C4: the installed setter (with `shallow = false`, as at every install
site in this repository) is a no-op — no store, no re-observe, no
notification — when the new value strictly equals the old or both are
`NaN`, and a no-op when a captured getter exists with no setter;
otherwise it stores the new value (captured setter or local slot),
re-observes the new value to refresh the child observer, and calls
`dep.notify()` exactly once. -/
theorem c4_setter_equality_guards_and_notify (getter : Option JSVal)
    (hasSetter dev hasCS : Bool) (obRes : JSVal → Option Nat)
    (st : PropState) (newVal : JSVal) :
    (strictEq newVal (oldVal getter st) = true →
      reactiveSetter getter hasSetter false dev hasCS obRes st newVal = st) ∧
    (selfNe newVal = true → selfNe (oldVal getter st) = true →
      reactiveSetter getter hasSetter false dev hasCS obRes st newVal = st) ∧
    (getter.isSome = true → hasSetter = false →
      (reactiveSetter getter hasSetter false dev hasCS obRes st newVal).val
          = st.val ∧
      (reactiveSetter getter hasSetter false dev hasCS obRes st
          newVal).setterCalls = st.setterCalls ∧
      (reactiveSetter getter hasSetter false dev hasCS obRes st
          newVal).observeCalls = st.observeCalls ∧
      (reactiveSetter getter hasSetter false dev hasCS obRes st
          newVal).childOb = st.childOb ∧
      (reactiveSetter getter hasSetter false dev hasCS obRes st
          newVal).notifyCalls = st.notifyCalls) ∧
    ((strictEq newVal (oldVal getter st)
        || (selfNe newVal && selfNe (oldVal getter st))) = false →
      (getter.isSome && !hasSetter) = false →
      ((hasSetter = true →
        (reactiveSetter getter hasSetter false dev hasCS obRes st
            newVal).setterCalls = st.setterCalls ++ [newVal] ∧
        (reactiveSetter getter hasSetter false dev hasCS obRes st
            newVal).val = st.val) ∧
       (hasSetter = false →
        (reactiveSetter getter hasSetter false dev hasCS obRes st
            newVal).val = newVal) ∧
       (reactiveSetter getter hasSetter false dev hasCS obRes st
           newVal).observeCalls = st.observeCalls ++ [newVal] ∧
       (reactiveSetter getter hasSetter false dev hasCS obRes st
           newVal).childOb = obRes newVal ∧
       (reactiveSetter getter hasSetter false dev hasCS obRes st
           newVal).notifyCalls = st.notifyCalls + 1)) := by
  refine ⟨?_, ?_, ?_, ?_⟩
  · intro h
    simp only [oldVal] at h
    simp [reactiveSetter, h]
  · intro h1 h2
    simp only [oldVal] at h2
    simp [reactiveSetter, h1, h2]
  · intro hg hs
    by_cases hc : (strictEq newVal (oldVal getter st)
        || (selfNe newVal && selfNe (oldVal getter st))) = true
    · simp only [oldVal] at hc
      simp [reactiveSetter, hc]
    · simp only [oldVal] at hc
      rw [Bool.not_eq_true] at hc
      by_cases hd : (dev && hasCS) = true <;>
        simp [reactiveSetter, hc, hg, hs, hd]
  · intro hc hro
    simp only [oldVal] at hc
    cases hs : hasSetter with
    | true =>
      by_cases hd : (dev && hasCS) = true <;>
        simp [reactiveSetter, hc, hro, hd, hs]
    | false =>
      rw [hs] at hro
      have hg : getter.isSome = false := by simpa using hro
      by_cases hd : (dev && hasCS) = true <;>
        simp [reactiveSetter, hc, hg, hd, hs]

/-- Witness for C4: with no captured accessors, setting `num 1 → num 2`
stores the value, re-observes it (child observer id 3) and notifies once;
setting `NaN → NaN` leaves the state untouched. -/
theorem c4_setter_equality_guards_and_notify_witness :
    (reactiveSetter none false false false false (fun _ => some 3)
        ⟨JSVal.num 1, none, [], [], 0, 0⟩ (JSVal.num 2)).val = JSVal.num 2 ∧
    (reactiveSetter none false false false false (fun _ => some 3)
        ⟨JSVal.num 1, none, [], [], 0, 0⟩ (JSVal.num 2)).observeCalls
      = [JSVal.num 2] ∧
    (reactiveSetter none false false false false (fun _ => some 3)
        ⟨JSVal.num 1, none, [], [], 0, 0⟩ (JSVal.num 2)).childOb = some 3 ∧
    (reactiveSetter none false false false false (fun _ => some 3)
        ⟨JSVal.num 1, none, [], [], 0, 0⟩ (JSVal.num 2)).notifyCalls = 1 ∧
    reactiveSetter none false false false false (fun _ => some 3)
        ⟨JSVal.nan, none, [], [], 0, 0⟩ JSVal.nan
      = ⟨JSVal.nan, none, [], [], 0, 0⟩ := by
  have h1 := c4_setter_equality_guards_and_notify none false false false
    (fun _ => some 3) ⟨JSVal.num 1, none, [], [], 0, 0⟩ (JSVal.num 2)
  have h2 := c4_setter_equality_guards_and_notify none false false false
    (fun _ => some 3) ⟨JSVal.nan, none, [], [], 0, 0⟩ JSVal.nan
  exact ⟨(h1.2.2.2 (by decide) (by decide)).2.1 rfl,
         (h1.2.2.2 (by decide) (by decide)).2.2.1,
         (h1.2.2.2 (by decide) (by decide)).2.2.2.1,
         (h1.2.2.2 (by decide) (by decide)).2.2.2.2,
         h2.2.1 rfl rfl⟩

/-! ### Lemmas for `set` / `del` -/

theorem arraySet_get (es : List JSVal) (k : Nat) (v : JSVal) :
    (arraySet es k v).get? k = some v := by
  have hlen : k ≤ (es ++ List.replicate (k - es.length) JSVal.undef).length := by
    simp only [List.length_append, List.length_replicate]
    omega
  have htake :
      ((es ++ List.replicate (k - es.length) JSVal.undef).take k).length = k := by
    rw [List.length_take]
    omega
  simp only [arraySet]
  rw [List.append_assoc, List.get?_append_right htake.le, htake]
  simp

theorem lookup_setExisting_self (fs : List (Nat × JSVal)) (k : Nat) (v : JSVal)
    (h : (lookupKey fs k).isSome = true) :
    lookupKey (setExisting fs k v) k = some v := by
  induction fs with
  | nil => simp [lookupKey] at h
  | cons p rest ih =>
    obtain ⟨k', v'⟩ := p
    by_cases hk : k' = k
    · simp [setExisting, lookupKey, hk]
    · simp only [setExisting, lookupKey, if_neg hk] at h ⊢
      exact ih h

theorem lookup_setExisting_ne (fs : List (Nat × JSVal)) (k k' : Nat) (v : JSVal)
    (h : k' ≠ k) :
    lookupKey (setExisting fs k v) k' = lookupKey fs k' := by
  induction fs with
  | nil => simp [setExisting]
  | cons p rest ih =>
    obtain ⟨k0, v0⟩ := p
    by_cases hk : k0 = k
    · subst hk
      have hne : k0 ≠ k' := fun hh => h hh.symm
      simp [setExisting, lookupKey, hne]
    · simp only [setExisting, if_neg hk, lookupKey]
      by_cases hk' : k0 = k' <;> simp [hk', ih]

theorem lookup_removeKey_ne (fs : List (Nat × JSVal)) (k k' : Nat)
    (h : k' ≠ k) :
    lookupKey (removeKey fs k) k' = lookupKey fs k' := by
  induction fs with
  | nil => simp [removeKey]
  | cons p rest ih =>
    obtain ⟨k0, v0⟩ := p
    by_cases hk : k0 = k
    · subst hk
      have hne : k0 ≠ k' := fun hh => h hh.symm
      simp [removeKey, lookupKey, hne]
    · simp only [removeKey, if_neg hk, lookupKey]
      by_cases hk' : k0 = k' <;> simp [hk', ih]

/-- C5: `set(target, key, val)` — array with valid index ⇒ splice-based
insertion (after growing the length to cover the key) so the value lands
at `key` and, when the array is instrumented, interception observes the
value and notifies the array's dep; existing own key ⇒ direct assignment
with no set-level notification (the accessor handles it); absent key on
an observed non-Vue non-root target ⇒ `defineReactive` installs the
property (observing the value) and the Observer's dep is notified once;
absent key on an unobserved target ⇒ plain assignment, no notification. -/
theorem c5_set_dispatch (es : List JSVal) (ob : Bool) (o : ObjData)
    (k : Nat) (v : JSVal) :
    ((Vue.set (Container.arr es ob) k v).1 = Container.arr (arraySet es k v) ob ∧
     (arraySet es k v).get? k = some v ∧
     (ob = true → (Vue.set (Container.arr es ob) k v).2 = ⟨1, [v], false⟩)) ∧
    ((lookupKey o.fields k).isSome = true →
      (Vue.set (Container.obj o) k v).1 =
        Container.obj { o with fields := setExisting o.fields k v } ∧
      (Vue.set (Container.obj o) k v).2 = ⟨0, [], false⟩ ∧
      containerLookup (Vue.set (Container.obj o) k v).1 k = some v) ∧
    ((lookupKey o.fields k).isSome = false → o.isVue = false →
      o.observed = true → o.vmCount = 0 →
      (Vue.set (Container.obj o) k v).1 =
        Container.obj { o with fields := o.fields ++ [(k, v)] } ∧
      (Vue.set (Container.obj o) k v).2 = ⟨1, [v], false⟩) ∧
    ((lookupKey o.fields k).isSome = false → o.isVue = false →
      o.observed = false →
      (Vue.set (Container.obj o) k v).1 =
        Container.obj { o with fields := o.fields ++ [(k, v)] } ∧
      (Vue.set (Container.obj o) k v).2 = ⟨0, [], false⟩) := by
  refine ⟨⟨rfl, arraySet_get es k v, fun hob => by simp [Vue.set, hob]⟩,
          ?_, ?_, ?_⟩
  · intro hk
    have he : Vue.set (Container.obj o) k v =
        (Container.obj { o with fields := setExisting o.fields k v },
         ⟨0, [], false⟩) := by
      simp [Vue.set, hk]
    rw [he]
    exact ⟨rfl, rfl, lookup_setExisting_self o.fields k v hk⟩
  · intro hk hvue hob hvm
    constructor <;> simp [Vue.set, hk, hvue, hob, hvm]
  · intro hk hvue hob
    constructor <;> simp [Vue.set, hk, hvue, hob]

/-- Witness for C5: `set` on the observed array `[num 9]` at index 1
stores `num 8` at index 1 and notifies; on the observed object
`{1 ↦ num 7}` (not root data) adding key 2 installs it and notifies
once; on the unobserved object it assigns without notifying. -/
theorem c5_set_dispatch_witness :
    (arraySet [JSVal.num 9] 1 (JSVal.num 8)).get? 1 = some (JSVal.num 8) ∧
    (Vue.set (Container.arr [JSVal.num 9] true) 1 (JSVal.num 8)).2
      = ⟨1, [JSVal.num 8], false⟩ ∧
    (Vue.set (Container.obj ⟨[(1, JSVal.num 7)], true, 0, false⟩) 2
        (JSVal.num 5)).1
      = Container.obj ⟨[(1, JSVal.num 7), (2, JSVal.num 5)], true, 0, false⟩ ∧
    (Vue.set (Container.obj ⟨[(1, JSVal.num 7)], true, 0, false⟩) 2
        (JSVal.num 5)).2 = ⟨1, [JSVal.num 5], false⟩ ∧
    (Vue.set (Container.obj ⟨[(1, JSVal.num 7)], false, 0, false⟩) 2
        (JSVal.num 5)).2 = ⟨0, [], false⟩ := by
  have h1 := c5_set_dispatch [JSVal.num 9] true
    ⟨[(1, JSVal.num 7)], true, 0, false⟩ 1 (JSVal.num 8)
  have h2 := c5_set_dispatch [JSVal.num 9] true
    ⟨[(1, JSVal.num 7)], true, 0, false⟩ 2 (JSVal.num 5)
  have h3 := c5_set_dispatch [JSVal.num 9] true
    ⟨[(1, JSVal.num 7)], false, 0, false⟩ 2 (JSVal.num 5)
  exact ⟨h1.1.2.1, h1.1.2.2 rfl,
         (h2.2.2.1 rfl rfl rfl rfl).1, (h2.2.2.1 rfl rfl rfl rfl).2,
         (h3.2.2.2 rfl rfl rfl).2⟩

/-- C9: for a non-array target, `del(target, key)` with a key that is not
an own property returns without deleting anything and without notifying
any Dep; and in every branch reachable for such a target, own properties
other than `key` are left unchanged. -/
theorem c9_del_missing_key_noop_and_frame (o : ObjData) (k : Nat) :
    ((lookupKey o.fields k).isNone = true →
      (del (Container.obj o) k).1 = Container.obj o ∧
      (del (Container.obj o) k).2.obNotify = 0) ∧
    (∀ k', k' ≠ k →
      containerLookup (del (Container.obj o) k).1 k'
        = lookupKey o.fields k') := by
  constructor
  · intro hk
    by_cases hguard : (o.isVue = true ∨ (o.observed = true ∧ ¬o.vmCount = 0))
    · constructor <;> simp [del, hguard]
    · constructor <;> simp [del, hguard, hk]
  · intro k' hk'
    by_cases hguard : (o.isVue = true ∨ (o.observed = true ∧ ¬o.vmCount = 0))
    · simp [del, hguard, containerLookup]
    · by_cases hk : (lookupKey o.fields k).isNone = true
      · simp [del, hguard, hk, containerLookup]
      · have hvue : ¬(o.isVue = true) := fun h => hguard (Or.inl h)
        by_cases hob : o.observed = true
        · have hvm : o.vmCount = 0 := by
            by_contra hh
            exact hguard (Or.inr ⟨hob, hh⟩)
          simp [del, hguard, hk, hob, hvue, hvm, containerLookup,
                lookup_removeKey_ne o.fields k k' hk']
        · simp [del, hguard, hk, hob, hvue, containerLookup,
                lookup_removeKey_ne o.fields k k' hk']

/-- Witness for C9: deleting the absent key 2 from `{1 ↦ num 7}` (an
observed, non-root object) changes nothing and notifies nobody, and key
1 still reads `num 7`. -/
theorem c9_del_missing_key_noop_and_frame_witness :
    (del (Container.obj ⟨[(1, JSVal.num 7)], true, 0, false⟩) 2).1
      = Container.obj ⟨[(1, JSVal.num 7)], true, 0, false⟩ ∧
    (del (Container.obj ⟨[(1, JSVal.num 7)], true, 0, false⟩) 2).2.obNotify
      = 0 ∧
    containerLookup
      (del (Container.obj ⟨[(1, JSVal.num 7)], true, 0, false⟩) 2).1 1
      = some (JSVal.num 7) := by
  have h := c9_del_missing_key_noop_and_frame
    ⟨[(1, JSVal.num 7)], true, 0, false⟩ 2
  refine ⟨(h.1 (by decide)).1, (h.1 (by decide)).2, ?_⟩
  rw [h.2 1 (by decide)]
  rfl

/-- C6 counterexample: a non-extensible (frozen) container that already
carries an Observer does not make `observe` return nothing — the
`__ob__` check precedes the extensibility check, so the existing
Observer (id 7) is returned. -/
theorem c6_frozen_observed_returns_observer :
    (observe true false 5
        (ObsValue.obj ⟨false, true, false, false, some 7⟩)).1 = some 7 ∧
    ¬ (observe true false 5
        (ObsValue.obj ⟨false, true, false, false, some 7⟩)).1 = none := by
  constructor
  · rfl
  · simp [observe]

/-- C6 (amended): `observe` is idempotent — once a call returns an
Observer, every later call on the resulting container returns that same
Observer, leaves the container untouched and consumes no fresh observer
id (never wrapped twice); and `observe` returns nothing for primitives
and VNodes always, and for containers without an existing Observer that
are not array/plain-object or not extensible (frozen). -/
theorem c6_observe_idempotent_and_guards (shouldObs ssr : Bool) (n : Nat)
    (d : ObsObj) :
    (∀ i v' n', observe shouldObs ssr n (ObsValue.obj d) = (some i, v', n') →
      ∀ so₂ ssr₂ n₂, observe so₂ ssr₂ n₂ v' = (some i, v', n₂)) ∧
    (observe shouldObs ssr n ObsValue.prim).1 = none ∧
    (d.isVNode = true → (observe shouldObs ssr n (ObsValue.obj d)).1 = none) ∧
    (d.ob = none → d.arrayOrPlain = false →
      (observe shouldObs ssr n (ObsValue.obj d)).1 = none) ∧
    (d.ob = none → d.extensible = false →
      (observe shouldObs ssr n (ObsValue.obj d)).1 = none) := by
  refine ⟨?_, rfl, ?_, ?_, ?_⟩
  · intro i v' n' heq so₂ ssr₂ n₂
    by_cases hv : d.isVNode = true
    · simp [observe, hv] at heq
    · by_cases hob : d.ob.isSome = true
      · simp only [observe, hv, if_false, Bool.false_eq_true, if_neg,
          hob, if_true, Prod.mk.injEq] at heq
        obtain ⟨h1, h2, _⟩ := heq
        rw [← h2]
        simp [observe, hv, hob, h1]
      · by_cases hc : (shouldObs = true ∧ ssr = false ∧
            d.arrayOrPlain = true ∧ d.extensible = true ∧ d.isVue = false)
        · simp [observe, hv, hob, hc.1, hc.2.1, hc.2.2.1, hc.2.2.2.1,
            hc.2.2.2.2] at heq
          obtain ⟨h1, h2, _⟩ := heq
          rw [← h2, ← h1]
          simp [observe]
        · simp [observe, hv, hob, hc] at heq
  · intro hv; simp [observe, hv]
  · intro hob hap
    simp [observe, hob, hap]
  · intro hob hext
    simp [observe, hob, hext]

/-- Witness for C6: observing a fresh plain object creates Observer 5 and
tags the object; observing the tagged object again — even with
observation toggled off and a different fresh id — returns Observer 5
unchanged. -/
theorem c6_observe_idempotent_and_guards_witness :
    observe true false 5 (ObsValue.obj ⟨false, true, true, false, none⟩)
      = (some 5, ObsValue.obj ⟨false, true, true, false, some 5⟩, 6) ∧
    observe false true 99 (ObsValue.obj ⟨false, true, true, false, some 5⟩)
      = (some 5, ObsValue.obj ⟨false, true, true, false, some 5⟩, 99) ∧
    (observe true false 9 (ObsValue.obj ⟨false, true, false, false, none⟩)).1
      = none := by
  have h := c6_observe_idempotent_and_guards true false 5
    ⟨false, true, true, false, none⟩
  have h9 := c6_observe_idempotent_and_guards true false 9
    ⟨false, true, false, false, none⟩
  refine ⟨by decide, ?_, h9.2.2.2.2 rfl rfl⟩
  exact h.1 5 (ObsValue.obj ⟨false, true, true, false, some 5⟩) 6
    (by decide) false true 99

/-- A self-referencing object with no Observer: `{}` whose single
property points back to itself, created outside the reactivity system
(no `__ob__`). -/
def loopHeap : List TNode := [⟨false, false, none, [TVal.ref 0]⟩]

/-- On `loopHeap`, `_traverse` never finishes: the seen-set guard is
keyed on Observer dep ids, and the node has no Observer. -/
theorem loopHeap_runs_forever :
    ∀ fuel seen, traverseF loopHeap fuel (TVal.ref 0) seen = none := by
  intro fuel
  induction fuel with
  | zero => intro seen; simp [traverseF]
  | succ fuel ih =>
    intro seen
    have hg : loopHeap[0]? = some ⟨false, false, none, [TVal.ref 0]⟩ := rfl
    simp [traverseF, hg, traverseChildren, ih seen]

/-- C7 counterexample: `traverse` does not terminate on every
self-referencing input — on the unobserved one-node cycle no amount of
fuel completes the walk. -/
theorem c7_traverse_diverges_on_unobserved_cycle :
    ¬ ∃ fuel s', traverseF loopHeap fuel (TVal.ref 0) [] = some s' := by
  rintro ⟨fuel, s', hs⟩
  rw [loopHeap_runs_forever fuel []] at hs
  cases hs

/-- With every traversable node observed, `_traverse` completes once the
fuel exceeds the number of unseen dep ids: each descent into a new
object adds its dep id to the seen set. -/
theorem traverseF_total (h : List TNode) (hObs : AllObserved h) :
    ∀ fuel, ∀ v seen, (heapDepIds h \ seen.toFinset).card < fuel →
      ∃ s', traverseF h fuel v seen = some s' ∧ seen ⊆ s' := by
  intro fuel
  induction fuel with
  | zero => intro v seen hlt; exact absurd hlt (Nat.not_lt_zero _)
  | succ fuel ih =>
    intro v seen hlt
    have hchild : ∀ cs seen',
        (heapDepIds h \ seen'.toFinset).card < fuel →
        ∃ s', traverseChildren h fuel cs seen' = some s' ∧ seen' ⊆ s' := by
      intro cs
      induction cs with
      | nil =>
        intro seen' _
        exact ⟨seen', by simp [traverseChildren], fun x hx => hx⟩
      | cons c rest ihc =>
        intro seen' hlt'
        obtain ⟨s1, he1, hs1⟩ := ih c seen' hlt'
        have hsubF : seen'.toFinset ⊆ s1.toFinset := by
          intro x hx
          rw [List.mem_toFinset] at hx ⊢
          exact hs1 hx
        have hlt1 : (heapDepIds h \ s1.toFinset).card < fuel :=
          lt_of_le_of_lt
            (Finset.card_le_card
              (Finset.sdiff_subset_sdiff (Finset.Subset.refl _) hsubF)) hlt'
        obtain ⟨s2, he2, hs2⟩ := ihc s1 hlt1
        exact ⟨s2, by simp [traverseChildren, he1, he2],
               List.Subset.trans hs1 hs2⟩
    cases v with
    | prim => exact ⟨seen, by simp [traverseF], fun x hx => hx⟩
    | ref i =>
      cases hget : h[i]? with
      | none => exact ⟨seen, by simp [traverseF, hget], fun x hx => hx⟩
      | some nd =>
        have hmem : nd ∈ h := by
          rw [← List.get?_eq_getElem?] at hget
          exact List.get?_mem hget
        by_cases hfv : (nd.frozen || nd.vnode) = true
        · rcases Bool.or_eq_true_iff.mp hfv with h1 | h1 <;>
            exact ⟨seen, by simp [traverseF, hget, h1], fun x hx => hx⟩
        · rw [Bool.or_eq_true, not_or] at hfv
          have hfz : nd.frozen = false := by
            simpa using hfv.1
          have hvn : nd.vnode = false := by
            simpa using hfv.2
          have hsome := hObs nd hmem hfz hvn
          obtain ⟨dd, hdd⟩ := Option.isSome_iff_exists.mp hsome
          by_cases hin : dd ∈ seen
          · exact ⟨seen, by simp [traverseF, hget, hfz, hvn, hdd, hin],
                   fun x hx => hx⟩
          · have hddS : dd ∈ heapDepIds h := by
              simp only [heapDepIds, List.mem_toFinset, List.mem_filterMap]
              exact ⟨nd, hmem, hdd⟩
            have hddn : dd ∉ seen.toFinset := by
              simpa [List.mem_toFinset] using hin
            have hddin : dd ∈ heapDepIds h \ seen.toFinset :=
              Finset.mem_sdiff.mpr ⟨hddS, hddn⟩
            have hcard : (heapDepIds h \ (dd :: seen).toFinset).card < fuel := by
              have h2 : heapDepIds h \ (dd :: seen).toFinset
                  = (heapDepIds h \ seen.toFinset).erase dd := by
                ext x
                simp only [List.toFinset_cons, Finset.mem_sdiff,
                  Finset.mem_erase, Finset.mem_insert]
                tauto
              rw [h2, Finset.card_erase_of_mem hddin]
              have h4 : 1 ≤ (heapDepIds h \ seen.toFinset).card :=
                Finset.card_pos.mpr ⟨dd, hddin⟩
              omega
            obtain ⟨s', he, hs⟩ := hchild nd.children.reverse (dd :: seen) hcard
            refine ⟨s', by simp [traverseF, hget, hfz, hvn, hdd, hin, he], ?_⟩
            exact fun x hx => hs (List.mem_cons_of_mem _ hx)

/-- C7 (amended): `traverse` stops at non-objects, frozen values and
VNodes; for a value carrying an Observer it consults the per-call seen
set keyed by the Observer's dep id and does not recurse when that id was
already seen; the seen set is cleared after the top-level call; and the
walk terminates on every input — cyclic structures included — in which
every traversed object carries an Observer (fuel exceeding the number of
unseen dep ids suffices; without an Observer on a cycle the guard never
fires, see the counterexample). -/
theorem c7_traverse_cycle_safe (h : List TNode) (v : TVal) (seen : List Nat)
    (fuel : Nat) (hObs : AllObserved h)
    (hfuel : (heapDepIds h \ seen.toFinset).card < fuel) :
    (∃ s', traverseF h fuel v seen = some s') ∧
    traverseTop h fuel v seen = (some (), []) ∧
    (∀ fl s0, traverseF h (fl + 1) TVal.prim s0 = some s0) ∧
    (∀ fl i nd s0, h[i]? = some nd → nd.frozen = true ∨ nd.vnode = true →
      traverseF h (fl + 1) (TVal.ref i) s0 = some s0) ∧
    (∀ fl i nd dd s0, h[i]? = some nd → nd.frozen = false →
      nd.vnode = false → nd.depId = some dd → dd ∈ s0 →
      traverseF h (fl + 1) (TVal.ref i) s0 = some s0) := by
  obtain ⟨s', he, _⟩ := traverseF_total h hObs fuel v seen hfuel
  refine ⟨⟨s', he⟩, by simp [traverseTop, he], ?_, ?_, ?_⟩
  · intro fl s0; simp [traverseF]
  · intro fl i nd s0 hget hfv
    rcases hfv with h1 | h1 <;> simp [traverseF, hget, h1]
  · intro fl i nd dd s0 hget hfz hvn hdd hin
    simp [traverseF, hget, hfz, hvn, hdd, hin]

/-- A two-object reference cycle built from observed (reactive) data:
object 0 (dep id 0) points at object 1 (dep id 1) and back. -/
def cyclicHeap : List TNode :=
  [⟨false, false, some 0, [TVal.ref 1]⟩,
   ⟨false, false, some 1, [TVal.ref 0]⟩]

/-- Witness for C7: on the observed two-object cycle, fuel 3 exceeds the
two dep ids, the walk completes and the global seen set is cleared. -/
theorem c7_traverse_cycle_safe_witness :
    AllObserved cyclicHeap ∧
    (heapDepIds cyclicHeap \ ([] : List Nat).toFinset).card < 3 ∧
    traverseTop cyclicHeap 3 (TVal.ref 0) [] = (some (), []) := by
  have hObs : AllObserved cyclicHeap := by
    simp only [AllObserved, cyclicHeap]
    decide
  have hfuel : (heapDepIds cyclicHeap \ ([] : List Nat).toFinset).card < 3 := by
    decide
  exact ⟨hObs, hfuel,
    (c7_traverse_cycle_safe cyclicHeap (TVal.ref 0) [] 3 hObs hfuel).2.1⟩
